import Mathlib

/-!
Verification of the Sorbet expression-tree data model and DSL rewrite
infrastructure, shallowly embedded from `src/ast/Trees.cc` and
`src/dsl/dsl.cc`.

The first part models the rewrite driver `DSLReplacer::postTransformClassDef`
(src/dsl/dsl.cc): the per-statement typecase dispatch, the priority-ordered
rule sequence for `Send` statements, the `prevStat` threading, the
`replaceNodes` map, the no-op fast path and the splicing rebuild of the
class body.  The second part models the rendering functions (`toString`,
`showRaw`) and construction-time location handling of the tree nodes in
`src/ast/Trees.cc`.
-/

namespace SorbetDSL

/-- The statement kinds that the `typecase` in
`DSLReplacer::postTransformClassDef` (src/dsl/dsl.cc:26-70) dispatches on:
`ast::Assign`, `ast::Send`, `ast::MethodDef`, and the fallback
`ast::Expression` case that covers every other variant. -/
inductive StmtKind where
  | assign
  | send
  | methodDef
  | other
  deriving DecidableEq, Repr

/-- A class-body statement as seen by the rewrite driver.  `id` models the
C++ object identity (the `stat.get()` pointer that is used as the
`UnorderedMap` key in dsl.cc:24,30), and `kind` models the dynamic type that
`typecase` dispatches on.  The statement's payload is irrelevant to the
driver, which treats statements opaquely and hands them to the rules. -/
structure Stmt where
  id : Nat
  kind : StmtKind
  deriving DecidableEq, Repr

/-- The desugaring rules invoked by `DSLReplacer::postTransformClassDef`,
kept abstract exactly as the driver sees them: each is a function from a
statement to a replacement list, where `[]` means "no match"
(dsl.cc:28,36,42,48,55,63).  `attrReader` additionally receives the
`prevStat` context (dsl.cc:55). -/
structure Rules where
  structRule : Stmt → List Stmt
  chalkODMProp : Stmt → List Stmt
  mixinEncryptedProp : Stmt → List Stmt
  dslBuilder : Stmt → List Stmt
  attrReader : Stmt → Option Stmt → List Stmt
  sinatra : Stmt → List Stmt

/-- The body of the `typecase` in `DSLReplacer::postTransformClassDef`
(dsl.cc:26-70): the replacement list recorded for one statement, `[]` when
nothing is recorded.  On `Assign` only `Struct::replaceDSL` runs; on `Send`
the four Send rules run in order `ChalkODMProp`, `MixinEncryptedProp`,
`DSLBuilder`, `AttrReader` with an early return at the first non-empty
result; on `MethodDef` only `Sinatra::replaceDSL` runs; every other
statement kind falls into the catch-all `[](ast::Expression *e) {}` case
and records nothing. -/
def applyRulesToStat (r : Rules) (prevStat : Option Stmt) (s : Stmt) : List Stmt :=
  match s.kind with
  | .assign => r.structRule s
  | .send =>
    let n1 := r.chalkODMProp s
    if n1 ≠ [] then n1
    else
      let n2 := r.mixinEncryptedProp s
      if n2 ≠ [] then n2
      else
        let n3 := r.dslBuilder s
        if n3 ≠ [] then n3
        else r.attrReader s prevStat
  | .methodDef => r.sinatra s
  | .other => []

/-- The scanning loop of `DSLReplacer::postTransformClassDef`
(dsl.cc:23-73): walks the body once, threading `prevStat` (updated to the
current statement after each iteration regardless of matching), and collects
the `replaceNodes` map as an association list keyed by statement identity;
an entry is added exactly when a rule produced a non-empty list. -/
def scan (r : Rules) : Option Stmt → List Stmt → List (Nat × List Stmt)
  | _, [] => []
  | prevStat, s :: rest =>
    let nodes := applyRulesToStat r prevStat s
    (if nodes = [] then [] else [(s.id, nodes)]) ++ scan r (some s) rest

/-- The rebuild loop of `DSLReplacer::postTransformClassDef` (dsl.cc:82-90):
for each original statement, if `replaceNodes` has an entry for it, splice
that entry's list, otherwise keep the statement itself. -/
def rebuild (replaceNodes : List (Nat × List Stmt)) : List Stmt → List Stmt
  | [] => []
  | s :: rest =>
    match replaceNodes.lookup s.id with
    | some nodes => nodes ++ rebuild replaceNodes rest
    | none => s :: rebuild replaceNodes rest

/-- A class definition as seen by the driver: an identity (the C++ object)
and the body statement list `rhs`.  The remaining fields (name, ancestors,
symbol, kind) are never touched by the driver. -/
structure ClassDef where
  id : Nat
  rhs : List Stmt
  deriving DecidableEq, Repr

/-- `DSLReplacer::postTransformClassDef` (dsl.cc:20-92): first the
class-level hook `Command::patchDSL` runs on the whole node (dsl.cc:21,
modelled as the abstract in-place rewrite `patchDSL`), then the body is
scanned statement by statement; if no statement matched any rule the same
class definition is returned unchanged (dsl.cc:74-76), otherwise the body is
rebuilt by splicing the recorded replacement lists (dsl.cc:78-91). -/
def postTransformClassDef (patchDSL : ClassDef → ClassDef) (r : Rules)
    (classDef : ClassDef) : ClassDef :=
  let classDef := patchDSL classDef
  let replaceNodes := scan r none classDef.rhs
  if replaceNodes = [] then classDef
  else { classDef with rhs := rebuild replaceNodes classDef.rhs }

/-- Specification-side description of the rebuilt body: an order-preserving
flatten where a statement with a non-empty rule result contributes its
replacement list and every other statement contributes itself, with
`prevStat` threaded exactly as in the scan. -/
def specRebuild (r : Rules) : Option Stmt → List Stmt → List Stmt
  | _, [] => []
  | prevStat, s :: rest =>
    (let n := applyRulesToStat r prevStat s
     if n = [] then [s] else n) ++ specRebuild r (some s) rest

/-- Specification-side "first matching rule wins": the first non-empty list
in a priority-ordered sequence of rule results, `[]` if all are empty. -/
def firstNonEmpty : List (List Stmt) → List Stmt
  | [] => []
  | l :: ls => if l = [] then firstNonEmpty ls else l

/-- The `prevStat` value passed to the rule sequence for the statement at
position `i` of a body `l`, when the scan starts with `p0`: `p0` for the
first statement and the original statement `l[i-1]` afterwards. -/
def prevFrom (p0 : Option Stmt) (l : List Stmt) : Nat → Option Stmt
  | 0 => p0
  | i + 1 => l.get? i

/-- Specification-side description of one scan step by position: the
`replaceNodes` entry produced for the statement at position `i` of body `l`
(none if the position is past the end or no rule matched), with `prevStat`
given by `prevFrom`. -/
def scanSpecAt (r : Rules) (p0 : Option Stmt) (l : List Stmt) (i : Nat) :
    Option (Nat × List Stmt) :=
  match l.get? i with
  | none => none
  | some s =>
    let n := applyRulesToStat r (prevFrom p0 l i) s
    if n = [] then none else some (s.id, n)

/-- Specification-side description of the whole scan: the entries produced
at positions `0, 1, …` in order. -/
def scanSpec (r : Rules) (p0 : Option Stmt) (l : List Stmt) :
    List (Nat × List Stmt) :=
  (List.range l.length).filterMap (scanSpecAt r p0 l)

mutual

/-- Modelled from the spec: the node shape seen by the generic bottom-up
tree-rewrite engine of §4.2 (the engine itself, `ast::TreeMap` of
`ast/treemap/treemap.h`, is not under src/).  For the Send-hook claim only
the distinction "this node is a `Send`" matters, so a node is a `Send` with
children or any other variant with children. -/
inductive TNode where
  | send (children : TNodeList)
  | other (children : TNodeList)

/-- Modelled from the spec: a list of child nodes of a `TNode` (mutually
inductive with `TNode`). -/
inductive TNodeList where
  | nil
  | cons (head : TNode) (tail : TNodeList)

end

/-- `DSLReplacer::postTransformSend` (dsl.cc:94-96): the Send-kind hook of
the generic engine; it simply delegates to `InterfaceWrapper::replaceDSL`
(kept abstract as `iw`, its business logic is out of scope). -/
def postTransformSend (iw : TNode → TNode) (send : TNode) : TNode :=
  iw send

mutual

/-- Modelled from the spec: the generic bottom-up tree-rewrite engine of
§4.2 (`ast::TreeMap`, not under src/), restricted to its Send hook `h`:
children are transformed first, then the hook runs on every node that is a
`Send` after its children were transformed. -/
def treeMapModel (h : TNode → TNode) : TNode → TNode
  | .send cs => h (.send (treeMapListModel h cs))
  | .other cs => .other (treeMapListModel h cs)

/-- Modelled from the spec: the engine of §4.2 mapped over a child list. -/
def treeMapListModel (h : TNode → TNode) : TNodeList → TNodeList
  | .nil => .nil
  | .cons c cs => .cons (treeMapModel h c) (treeMapListModel h cs)

end

mutual

/-- `true` when no `Send` node occurs anywhere in the tree. -/
def sendFree : TNode → Bool
  | .send _ => false
  | .other cs => sendFreeList cs

/-- `true` when no `Send` node occurs anywhere in a child list. -/
def sendFreeList : TNodeList → Bool
  | .nil => true
  | .cons c cs => sendFree c && sendFreeList cs

end

/-- A concrete rule set for witnesses: the property-DSL rule
(`ChalkODMProp`) replaces the statement with id 1 by two fresh statements,
and the builder rule (`DSLBuilder`) would also match it; everything else
matches nothing. -/
def exampleRules : Rules where
  structRule := fun _ => []
  chalkODMProp := fun s => if s.id = 1 then [⟨10, .other⟩, ⟨11, .other⟩] else []
  mixinEncryptedProp := fun _ => []
  dslBuilder := fun s => if s.id = 1 then [⟨99, .other⟩] else []
  attrReader := fun _ _ => []
  sinatra := fun _ => []

/-- A concrete rule set for witnesses in which no rule ever matches. -/
def emptyRules : Rules where
  structRule := fun _ => []
  chalkODMProp := fun _ => []
  mixinEncryptedProp := fun _ => []
  dslBuilder := fun _ => []
  attrReader := fun _ _ => []
  sinatra := fun _ => []

/-- A concrete three-statement class body for witnesses: `[s0, s1, s2]`
where only `s1` (the `Send` with id 1) is matched by `exampleRules`. -/
def exampleClassDef : ClassDef where
  id := 0
  rhs := [⟨0, .other⟩, ⟨1, .send⟩, ⟨2, .other⟩]

end SorbetDSL

namespace SorbetAST

/-- printTabs (Trees.cc:72-78): appends two spaces `count` times; the C++
count is a signed int and a non-positive count appends nothing. -/
def printTabs (count : Int) : String :=
  String.join (List.replicate count.toNat "  ")

/-- A subexpression as seen by the renderers: either the `EmptyTree`
sentinel (whose dynamic type the renderers test with `cast_tree`) or any
other variant, carried opaquely by its two renderings (`toString` text and
`showRaw` dump). -/
inductive RExpr where
  | emptyTree
  | atom (str raw : String)
  deriving DecidableEq, Repr

/-- EmptyTree::toString (Trees.cc:552-554) returns "<emptyTree>"; any other
variant renders its carried text. -/
def RExpr.toStr : RExpr → String
  | .emptyTree => "<emptyTree>"
  | .atom s _ => s

/-- EmptyTree::showRaw (Trees.cc:1188-1190) returns its nodeName
"EmptyTree"; any other variant dumps its carried text. -/
def RExpr.showRawStr : RExpr → String
  | .emptyTree => "EmptyTree"
  | .atom _ r => r

/-- The dynamic-type test `cast_tree<EmptyTree>(e.get()) != nullptr` used by
Rescue::toString (Trees.cc:801,808). -/
def RExpr.isEmptyTree : RExpr → Bool
  | .emptyTree => true
  | .atom _ _ => false

/-- ast::RescueCase as seen by its printer: exception list, bound variable
and body (constructor at Trees.cc:143-149). -/
structure RescueCase where
  exceptions : List RExpr
  var : RExpr
  body : RExpr
  deriving DecidableEq, Repr

/-- The exceptions loop of RescueCase::toString (Trees.cc:721-730): the
first exception is preceded by " ", later ones by ", ". -/
def renderExceptions : List RExpr → String
  | [] => ""
  | e :: es => " " ++ e.toStr ++ String.join (es.map fun x => ", " ++ x.toStr)

/-- RescueCase::toString (Trees.cc:718-733). -/
def RescueCase.toStr (rc : RescueCase) (tabs : Int) : String :=
  "rescue" ++ renderExceptions rc.exceptions ++ " => " ++ rc.var.toStr
    ++ "\n" ++ printTabs tabs ++ rc.body.toStr

/-- ast::Rescue as seen by its printer (constructor at Trees.cc:150-157):
body, rescue cases, else branch and ensure branch.  The constructor takes
all four children; per the data-model invariant the else/ensure slots hold
the EmptyTree sentinel when absent, never null, so they are total fields. -/
structure Rescue where
  body : RExpr
  rescueCases : List RescueCase
  else_ : RExpr
  ensure : RExpr
  deriving DecidableEq, Repr

/-- The "else" section that Rescue::toString appends (Trees.cc:801-807)
when the else branch is not the EmptyTree sentinel. -/
def elseSection (tabs : Int) (e : RExpr) : String :=
  "\n" ++ printTabs (tabs - 1) ++ "else" ++ "\n" ++ printTabs tabs ++ e.toStr

/-- The "ensure" section that Rescue::toString appends (Trees.cc:808-814)
when the ensure branch is not the EmptyTree sentinel. -/
def ensureSection (tabs : Int) (e : RExpr) : String :=
  "\n" ++ printTabs (tabs - 1) ++ "ensure" ++ "\n" ++ printTabs tabs ++ e.toStr

/-- Rescue::toString (Trees.cc:793-816): the body, then each rescue case,
then an else section exactly when the else branch is not EmptyTree, then an
ensure section exactly when the ensure branch is not EmptyTree. -/
def Rescue.toStr (r : Rescue) (tabs : Int) : String :=
  r.body.toStr
    ++ String.join (r.rescueCases.map fun rc =>
        "\n" ++ printTabs (tabs - 1) ++ rc.toStr tabs)
    ++ (if r.else_.isEmptyTree then "" else elseSection tabs r.else_)
    ++ (if r.ensure.isEmptyTree then "" else ensureSection tabs r.ensure)

/-- ast::Hash as seen by its printers: parallel key and value lists
(constructor at Trees.cc:255-260). -/
structure Hash where
  keys : List RExpr
  values : List RExpr
  deriving DecidableEq, Repr

/-- The loop of Hash::toString (Trees.cc:957-969): iterates over `keys`
with a running index into `values`; the `values[i]` access is modelled by
`values.get? i` and `none` propagates an out-of-bounds access (undefined
behaviour in the C++).  `first` is the separator flag. -/
def hashPairsToStr (values : List RExpr) : List RExpr → Nat → Bool → Option String
  | [], _, _ => some ""
  | k :: ks, i, first => do
    let v ← values[i]?
    let rest ← hashPairsToStr values ks (i + 1) false
    pure ((if first then "" else ", ") ++ k.toStr ++ " => " ++ v.toStr ++ rest)

/-- Hash::toString (Trees.cc:954-972); the braces wrap the pair list. -/
def Hash.toStr (h : Hash) : Option String :=
  (hashPairsToStr h.values h.keys 0 true).map fun s => "\x7b" ++ s ++ "\x7d"

/-- The pair-block loop of Hash::showRaw (Trees.cc:910-922), with the same
indexed access into `values`. -/
def hashPairsRaw (values : List RExpr) (tabs : Int) : List RExpr → Nat → Option String
  | [], _ => some ""
  | k :: ks, i => do
    let v ← values[i]?
    let rest ← hashPairsRaw values tabs ks (i + 1)
    pure (printTabs (tabs + 2) ++ "[" ++ "\n"
      ++ printTabs (tabs + 3) ++ "key = " ++ k.showRawStr ++ "\n"
      ++ printTabs (tabs + 3) ++ "value = " ++ v.showRawStr ++ "\n"
      ++ printTabs (tabs + 2) ++ "]" ++ "\n" ++ rest)

/-- Hash::showRaw (Trees.cc:906-931). -/
def Hash.showRawStr (h : Hash) (tabs : Int) : Option String :=
  (hashPairsRaw h.values tabs h.keys 0).map fun s =>
    "Hash" ++ "\x7b" ++ "\n" ++ printTabs (tabs + 1) ++ "pairs = [" ++ "\n"
      ++ s ++ printTabs (tabs + 1) ++ "]" ++ "\n" ++ printTabs tabs ++ "\x7d"

/-- Specification-side rendering of the Hash::toString pair list over
explicitly zipped key/value pairs. -/
def zipPairsToStr : List (RExpr × RExpr) → Bool → String
  | [], _ => ""
  | (k, v) :: ps, first =>
    (if first then "" else ", ") ++ k.toStr ++ " => " ++ v.toStr
      ++ zipPairsToStr ps false

/-- Specification-side rendering of the Hash::showRaw pair blocks over
explicitly zipped key/value pairs. -/
def zipPairsRaw (tabs : Int) : List (RExpr × RExpr) → String
  | [] => ""
  | (k, v) :: ps =>
    printTabs (tabs + 2) ++ "[" ++ "\n"
      ++ printTabs (tabs + 3) ++ "key = " ++ k.showRawStr ++ "\n"
      ++ printTabs (tabs + 3) ++ "value = " ++ v.showRawStr ++ "\n"
      ++ printTabs (tabs + 2) ++ "]" ++ "\n" ++ zipPairsRaw tabs ps

/-- The trailing block of a Send, abstracted by its two renderings
(Block::toString and Block::showRaw are built from external symbol data). -/
structure BlockNode where
  str : String
  raw : String
  deriving DecidableEq, Repr

/-- ast::Send as seen by its printers: the receiver and the trailing block
sit in unique_ptr slots that the constructor (Trees.cc:183-192) accepts as
given, so both are modelled as Option; the method-name rendering
(`fun.data(gs)->toString(gs)`) is carried opaquely; args are
subexpressions. -/
structure SendNode where
  recv : Option RExpr
  fn : String
  args : List RExpr
  blk : Option BlockNode
  deriving DecidableEq, Repr

/-- printElems (Trees.cc:284-299) on Send arguments, with ", " separators
(the ShadowArg separator special case concerns block argument lists, whose
variants are not modelled here). -/
def printElems : List RExpr → String
  | [] => ""
  | e :: es => e.toStr ++ String.join (es.map fun x => ", " ++ x.toStr)

/-- printArgs (Trees.cc:301-305). -/
def printArgs (args : List RExpr) : String :=
  "(" ++ printElems args ++ ")"

/-- Send::toString (Trees.cc:840-849): dereferences the receiver
unconditionally (`this->recv->toString(...)`; `none` models the crash on a
null receiver), then ".", the method name, the argument list, and the block
text only when the block pointer is non-null. -/
def SendNode.toStr (s : SendNode) : Option String :=
  match s.recv with
  | none => none
  | some r => some (r.toStr ++ "." ++ s.fn ++ printArgs s.args
      ++ (match s.blk with
          | some b => b.str
          | none => ""))

/-- The argument dump loop of Send::showRaw (Trees.cc:867-871). -/
def rawElems (tabs : Int) : List RExpr → String
  | [] => ""
  | e :: es => printTabs (tabs + 2) ++ e.showRawStr ++ "\n" ++ rawElems tabs es

/-- Send::showRaw (Trees.cc:851-877): also dereferences the receiver
unconditionally, and prints the literal "nullptr" when the block pointer is
null. -/
def SendNode.showRawStr (s : SendNode) (tabs : Int) : Option String :=
  match s.recv with
  | none => none
  | some r => some ("Send" ++ "\x7b" ++ "\n"
      ++ printTabs (tabs + 1) ++ "recv = " ++ r.showRawStr ++ "\n"
      ++ printTabs (tabs + 1) ++ "fun = " ++ s.fn ++ "\n"
      ++ printTabs (tabs + 1) ++ "block = "
      ++ (match s.blk with
          | some b => b.raw ++ "\n"
          | none => "nullptr" ++ "\n")
      ++ printTabs (tabs + 1) ++ "args = [" ++ "\n"
      ++ rawElems tabs s.args
      ++ printTabs (tabs + 1) ++ "]" ++ "\n"
      ++ printTabs tabs ++ "\x7d")

/-- core::Loc, the external source-location handle: either the
distinguished "none" location produced by core::Loc::none() or a real
source span. -/
inductive Loc where
  | noneLoc
  | span (lo hi : Nat)
  deriving DecidableEq, Repr

/-- The closed set of concrete expression variants whose constructors
appear in Trees.cc:84-282. -/
inductive NodeKind where
  | classDef
  | methodDef
  | ifNode
  | whileNode
  | breakNode
  | retryNode
  | nextNode
  | returnNode
  | yieldNode
  | rescueCase
  | rescueNode
  | fieldNode
  | localNode
  | unresolvedIdent
  | assign
  | send
  | castNode
  | zsuperArgs
  | restArg
  | keywordArg
  | optionalArg
  | shadowArg
  | blockArg
  | literal
  | unresolvedConstantLit
  | constantLit
  | selfNode
  | block
  | hash
  | array
  | insSeq
  | emptyTree
  deriving DecidableEq, Repr

/-- A constructed node viewed through the fields relevant to location
provenance: its variant and the Loc stored by the base-class initializer
Expression::Expression(loc) (Trees.cc:80).  The payload children are
elided: no constructor computes its stored location from them. -/
structure CNode where
  kind : NodeKind
  loc : Loc
  deriving DecidableEq, Repr

/-- ClassDef::ClassDef (Trees.cc:84-92): stores the caller-supplied loc
(declLoc goes to a separate Declaration field). -/
def mkClassDef (loc _declLoc : Loc) : CNode := ⟨.classDef, loc⟩

/-- MethodDef::MethodDef (Trees.cc:94-100): stores the caller-supplied
loc. -/
def mkMethodDef (loc _declLoc : Loc) : CNode := ⟨.methodDef, loc⟩

/-- If::If (Trees.cc:105-109). -/
def mkIf (loc : Loc) : CNode := ⟨.ifNode, loc⟩

/-- While::While (Trees.cc:111-115). -/
def mkWhile (loc : Loc) : CNode := ⟨.whileNode, loc⟩

/-- Break::Break (Trees.cc:117-120). -/
def mkBreak (loc : Loc) : CNode := ⟨.breakNode, loc⟩

/-- Retry::Retry (Trees.cc:122-125). -/
def mkRetry (loc : Loc) : CNode := ⟨.retryNode, loc⟩

/-- Next::Next (Trees.cc:127-130). -/
def mkNext (loc : Loc) : CNode := ⟨.nextNode, loc⟩

/-- Return::Return (Trees.cc:132-135). -/
def mkReturn (loc : Loc) : CNode := ⟨.returnNode, loc⟩

/-- Yield::Yield (Trees.cc:137-140). -/
def mkYield (loc : Loc) : CNode := ⟨.yieldNode, loc⟩

/-- RescueCase::RescueCase (Trees.cc:142-149). -/
def mkRescueCase (loc : Loc) : CNode := ⟨.rescueCase, loc⟩

/-- Rescue::Rescue (Trees.cc:150-157). -/
def mkRescue (loc : Loc) : CNode := ⟨.rescueNode, loc⟩

/-- Field::Field (Trees.cc:159-162). -/
def mkField (loc : Loc) : CNode := ⟨.fieldNode, loc⟩

/-- Local::Local (Trees.cc:164-167). -/
def mkLocal (loc : Loc) : CNode := ⟨.localNode, loc⟩

/-- UnresolvedIdent::UnresolvedIdent (Trees.cc:169-174). -/
def mkUnresolvedIdent (loc : Loc) : CNode := ⟨.unresolvedIdent, loc⟩

/-- Assign::Assign (Trees.cc:176-180). -/
def mkAssign (loc : Loc) : CNode := ⟨.assign, loc⟩

/-- Send::Send (Trees.cc:182-192). -/
def mkSend (loc : Loc) : CNode := ⟨.send, loc⟩

/-- Cast::Cast (Trees.cc:194-198). -/
def mkCast (loc : Loc) : CNode := ⟨.castNode, loc⟩

/-- ZSuperArgs::ZSuperArgs (Trees.cc:200-203). -/
def mkZSuperArgs (loc : Loc) : CNode := ⟨.zsuperArgs, loc⟩

/-- RestArg::RestArg (Trees.cc:205-208). -/
def mkRestArg (loc : Loc) : CNode := ⟨.restArg, loc⟩

/-- KeywordArg::KeywordArg (Trees.cc:210-213). -/
def mkKeywordArg (loc : Loc) : CNode := ⟨.keywordArg, loc⟩

/-- OptionalArg::OptionalArg (Trees.cc:215-219). -/
def mkOptionalArg (loc : Loc) : CNode := ⟨.optionalArg, loc⟩

/-- ShadowArg::ShadowArg (Trees.cc:221-224). -/
def mkShadowArg (loc : Loc) : CNode := ⟨.shadowArg, loc⟩

/-- BlockArg::BlockArg (Trees.cc:226-229). -/
def mkBlockArg (loc : Loc) : CNode := ⟨.blockArg, loc⟩

/-- Literal::Literal (Trees.cc:231-234). -/
def mkLiteral (loc : Loc) : CNode := ⟨.literal, loc⟩

/-- UnresolvedConstantLit::UnresolvedConstantLit (Trees.cc:236-240). -/
def mkUnresolvedConstantLit (loc : Loc) : CNode := ⟨.unresolvedConstantLit, loc⟩

/-- ConstantLit::ConstantLit (Trees.cc:242-247). -/
def mkConstantLit (loc : Loc) : CNode := ⟨.constantLit, loc⟩

/-- Self::Self (Trees.cc:249-252). -/
def mkSelf (loc : Loc) : CNode := ⟨.selfNode, loc⟩

/-- Block::Block (Trees.cc:254-258). -/
def mkBlock (loc : Loc) : CNode := ⟨.block, loc⟩

/-- Hash::Hash (Trees.cc:260-265). -/
def mkHash (loc : Loc) : CNode := ⟨.hash, loc⟩

/-- Array::Array (Trees.cc:267-271). -/
def mkArray (loc : Loc) : CNode := ⟨.array, loc⟩

/-- InsSeq::InsSeq (Trees.cc:273-277). -/
def mkInsSeq (loc : Loc) : CNode := ⟨.insSeq, loc⟩

/-- EmptyTree::EmptyTree (Trees.cc:279-282): the only constructor that
takes no location; it initializes the base class with core::Loc::none(). -/
def mkEmptyTree : CNode := ⟨.emptyTree, Loc.noneLoc⟩

end SorbetAST

/-!
Theorems.  The helper lemmas come first, then one theorem per claim with
its witness where the theorem carries hypotheses.
-/

namespace SorbetDSL

/-- If every applicable rule returns an empty list for every statement of
the body, the scan records nothing. -/
theorem scan_eq_nil_of_all_empty (r : Rules) :
    ∀ (p0 : Option Stmt) (l : List Stmt),
      (∀ (p : Option Stmt) (s : Stmt), s ∈ l → applyRulesToStat r p s = []) →
      scan r p0 l = [] := by
  intro p0 l
  induction l generalizing p0 with
  | nil => intro _; rfl
  | cons s rest ih =>
    intro h
    have hs : applyRulesToStat r p0 s = [] := h p0 s (List.mem_cons_self s rest)
    have hrest : scan r (some s) rest = [] :=
      ih (some s) fun p t ht => h p t (List.mem_cons_of_mem s ht)
    simp [scan, hs, hrest]

/-- A successful association-list lookup comes from a member entry. -/
theorem mem_of_lookup_eq_some :
    ∀ {m : List (Nat × List Stmt)} {k : Nat} {v : List Stmt},
      m.lookup k = some v → (k, v) ∈ m := by
  intro m
  induction m with
  | nil => intro k v h; simp [List.lookup] at h
  | cons e es ih =>
    intro k v h
    obtain ⟨a, b⟩ := e
    by_cases hk : k = a
    · subst hk
      simp [List.lookup] at h
      simp [h]
    · have hk' : (k == a) = false := beq_eq_false_iff_ne.mpr hk
      simp [List.lookup, hk'] at h
      exact List.mem_cons_of_mem _ (ih h)

/-- Every key recorded by the scan is the id of a statement of the body. -/
theorem scan_key_mem (r : Rules) :
    ∀ (l : List Stmt) (p : Option Stmt) {k : Nat} {v : List Stmt},
      (k, v) ∈ scan r p l → k ∈ l.map Stmt.id := by
  intro l
  induction l with
  | nil => intro p k v h; simp [scan] at h
  | cons s rest ih =>
    intro p k v h
    rw [scan] at h
    rcases List.mem_append.mp h with hl | hr
    · by_cases hn : applyRulesToStat r p s = []
      · simp [hn] at hl
      · simp [hn] at hl
        simp [hl.1]
    · exact List.mem_cons_of_mem _ (ih (some s) hr)

/-- An entry whose key is not the id of any statement of the body does not
change the rebuild. -/
theorem rebuild_cons_of_not_mem {k : Nat} {v : List Stmt}
    (m : List (Nat × List Stmt)) :
    ∀ l : List Stmt, k ∉ l.map Stmt.id →
      rebuild ((k, v) :: m) l = rebuild m l := by
  intro l
  induction l with
  | nil => intro _; rfl
  | cons s rest ih =>
    intro h
    have hne : s.id ≠ k := by
      intro he; exact h (by simp [he])
    have hbeq : (s.id == k) = false := beq_eq_false_iff_ne.mpr hne
    have hrest : k ∉ rest.map Stmt.id := fun hm => h (List.mem_cons_of_mem _ hm)
    rw [rebuild, rebuild, ih hrest]
    simp [List.lookup, hbeq]

/-- The rebuild loop applied to the scan's map is the order-preserving
flatten: each matched statement is replaced in place by its recorded list,
each unmatched statement contributes itself (requires the statement
identities to be distinct, which models the distinctness of the
`unique_ptr`-owned statement addresses used as map keys). -/
theorem rebuild_scan (r : Rules) :
    ∀ (l : List Stmt) (p : Option Stmt), (l.map Stmt.id).Nodup →
      rebuild (scan r p l) l = specRebuild r p l := by
  intro l
  induction l with
  | nil => intro p _; rfl
  | cons s rest ih =>
    intro p hnd
    rw [List.map_cons, List.nodup_cons] at hnd
    obtain ⟨hs, hnd'⟩ := hnd
    by_cases hn : applyRulesToStat r p s = []
    · have hscan : scan r p (s :: rest) = scan r (some s) rest := by
        simp [scan, hn]
      have hlk : (scan r (some s) rest).lookup s.id = none := by
        cases hcase : (scan r (some s) rest).lookup s.id with
        | none => rfl
        | some v =>
          exact absurd (scan_key_mem r rest (some s) (mem_of_lookup_eq_some hcase)) hs
      rw [hscan, rebuild, hlk, ih (some s) hnd']
      simp [specRebuild, hn]
    · have hscan : scan r p (s :: rest)
          = (s.id, applyRulesToStat r p s) :: scan r (some s) rest := by
        simp [scan, hn]
      rw [hscan, rebuild]
      have hlk : ((s.id, applyRulesToStat r p s) :: scan r (some s) rest).lookup s.id
          = some (applyRulesToStat r p s) := by
        simp [List.lookup]
      rw [hlk, rebuild_cons_of_not_mem _ rest hs, ih (some s) hnd']
      simp [specRebuild, hn]

end SorbetDSL

namespace SorbetDSL

/-- C1: for every class body processed by `DSLReplacer::postTransformClassDef`
whose statement identities are distinct (as `unique_ptr` addresses are), when
at least one statement has a recorded replacement list, the returned body is
the original statement sequence rebuilt in original order with each matched
statement replaced in place by its replacement list and every unmatched
statement contributing itself unchanged. -/
theorem c1_order_preserving_splice (patchDSL : ClassDef → ClassDef) (r : Rules)
    (cd : ClassDef)
    (hids : ((patchDSL cd).rhs.map Stmt.id).Nodup)
    (hmatch : scan r none (patchDSL cd).rhs ≠ []) :
    (postTransformClassDef patchDSL r cd).rhs
      = specRebuild r none (patchDSL cd).rhs := by
  rw [postTransformClassDef]
  simp only [if_neg hmatch]
  exact rebuild_scan r (patchDSL cd).rhs none hids

/-- Witness for C1 at the body `[s0, s1, s2]` of the claim: `s1` (the Send
with id 1) is replaced by the two statements with ids 10 and 11, and the
rebuilt body is exactly `[s0, r1a, r1b, s2]`. -/
theorem c1_order_preserving_splice_witness :
    (((id exampleClassDef).rhs.map Stmt.id).Nodup
      ∧ scan exampleRules none (id exampleClassDef).rhs ≠ [])
    ∧ (postTransformClassDef id exampleRules exampleClassDef).rhs
        = specRebuild exampleRules none (id exampleClassDef).rhs
    ∧ (postTransformClassDef id exampleRules exampleClassDef).rhs
        = [⟨0, .other⟩, ⟨10, .other⟩, ⟨11, .other⟩, ⟨2, .other⟩] :=
  ⟨⟨by decide, by decide⟩,
    c1_order_preserving_splice id exampleRules exampleClassDef (by decide) (by decide),
    (c1_order_preserving_splice id exampleRules exampleClassDef (by decide)
      (by decide)).trans (by decide)⟩

/-- C2: for a Send-kind statement the four Send rules are consulted in the
fixed order ChalkODMProp, MixinEncryptedProp, DSLBuilder, AttrReader; the
result is the first non-empty list in that order, the first non-empty entry
decides the result no matter what any later rule would return, and a
non-empty result is exactly what the scan records for the statement. -/
theorem c2_send_rule_priority (r : Rules) (prevStat : Option Stmt) (s : Stmt)
    (hk : s.kind = .send) :
    applyRulesToStat r prevStat s
      = firstNonEmpty [r.chalkODMProp s, r.mixinEncryptedProp s,
          r.dslBuilder s, r.attrReader s prevStat]
    ∧ (∀ (front : List Stmt) (later : List (List Stmt)),
        front ≠ [] → firstNonEmpty (front :: later) = front)
    ∧ (∀ rest : List Stmt, applyRulesToStat r prevStat s ≠ [] →
        scan r prevStat (s :: rest)
          = (s.id, applyRulesToStat r prevStat s) :: scan r (some s) rest) := by
  refine ⟨?_, ?_, ?_⟩
  · obtain ⟨i, k⟩ := s
    cases hk
    simp only [applyRulesToStat, firstNonEmpty]
    by_cases h1 : r.chalkODMProp ⟨i, .send⟩ = [] <;>
      by_cases h2 : r.mixinEncryptedProp ⟨i, .send⟩ = [] <;>
        by_cases h3 : r.dslBuilder ⟨i, .send⟩ = [] <;>
          by_cases h4 : r.attrReader ⟨i, .send⟩ prevStat = [] <;>
            simp [h1, h2, h3, h4]
  · intro front later hf
    simp [firstNonEmpty, hf]
  · intro rest hne
    simp [scan, hne]

/-- Witness for C2: a Send statement matched by both the property-DSL rule
and the builder rule of `exampleRules`; the recorded list is the
property-DSL one. -/
theorem c2_send_rule_priority_witness :
    (Stmt.mk 1 .send).kind = .send
    ∧ (applyRulesToStat exampleRules none ⟨1, .send⟩
        = firstNonEmpty [exampleRules.chalkODMProp ⟨1, .send⟩,
            exampleRules.mixinEncryptedProp ⟨1, .send⟩,
            exampleRules.dslBuilder ⟨1, .send⟩,
            exampleRules.attrReader ⟨1, .send⟩ none]
      ∧ (∀ (front : List Stmt) (later : List (List Stmt)),
          front ≠ [] → firstNonEmpty (front :: later) = front)
      ∧ (∀ rest : List Stmt, applyRulesToStat exampleRules none ⟨1, .send⟩ ≠ [] →
          scan exampleRules none (⟨1, .send⟩ :: rest)
            = ((1 : Nat), applyRulesToStat exampleRules none ⟨1, .send⟩)
                :: scan exampleRules (some ⟨1, .send⟩) rest))
    ∧ applyRulesToStat exampleRules none ⟨1, .send⟩
        = [⟨10, .other⟩, ⟨11, .other⟩] :=
  ⟨rfl, c2_send_rule_priority exampleRules none ⟨1, .send⟩ rfl, by decide⟩

/-- C3: when the per-statement scan records no replacement for any
statement, `postTransformClassDef` returns the very class definition it
scanned, body list untouched (the no-op fast path at dsl.cc:74-76). -/
theorem c3_noop_fast_path (patchDSL : ClassDef → ClassDef) (r : Rules)
    (cd : ClassDef)
    (h : ∀ (p : Option Stmt) (s : Stmt), s ∈ (patchDSL cd).rhs →
        applyRulesToStat r p s = []) :
    postTransformClassDef patchDSL r cd = patchDSL cd := by
  have hscan : scan r none (patchDSL cd).rhs = [] :=
    scan_eq_nil_of_all_empty r none _ h
  simp [postTransformClassDef, hscan]

/-- Witness for C3: with the never-matching rule set, the example class
body comes back as the identical object. -/
theorem c3_noop_fast_path_witness :
    (∀ (p : Option Stmt) (s : Stmt), s ∈ (id exampleClassDef).rhs →
        applyRulesToStat emptyRules p s = [])
    ∧ postTransformClassDef id emptyRules exampleClassDef = id exampleClassDef :=
  have hall : ∀ (p : Option Stmt) (s : Stmt), s ∈ (id exampleClassDef).rhs →
      applyRulesToStat emptyRules p s = [] := by
    intro p s _
    obtain ⟨i, k⟩ := s
    cases k <;> rfl
  ⟨hall, c3_noop_fast_path id emptyRules exampleClassDef hall⟩

end SorbetDSL

namespace SorbetDSL

/-- C4: exactly one branch of the statement-kind typecase runs per
statement — an `Assign` statement is decided by the Struct rule alone, a
`MethodDef` statement by the Sinatra rule alone, a `Send` statement by the
four Send rules alone, and a statement of any other kind is passed to no
rule and always contributes itself unchanged to the rebuilt body. -/
theorem c4_kind_dispatch (r : Rules) (prevStat : Option Stmt) (s : Stmt) :
    (s.kind = .assign →
      applyRulesToStat r prevStat s = r.structRule s
      ∧ ∀ (r' : Rules) (p' : Option Stmt), r'.structRule s = r.structRule s →
          applyRulesToStat r' p' s = applyRulesToStat r prevStat s)
    ∧ (s.kind = .methodDef →
      applyRulesToStat r prevStat s = r.sinatra s
      ∧ ∀ (r' : Rules) (p' : Option Stmt), r'.sinatra s = r.sinatra s →
          applyRulesToStat r' p' s = applyRulesToStat r prevStat s)
    ∧ (s.kind = .send →
      ∀ r' : Rules, r'.chalkODMProp s = r.chalkODMProp s →
        r'.mixinEncryptedProp s = r.mixinEncryptedProp s →
        r'.dslBuilder s = r.dslBuilder s →
        r'.attrReader s prevStat = r.attrReader s prevStat →
        applyRulesToStat r' prevStat s = applyRulesToStat r prevStat s)
    ∧ (s.kind = .other →
      (∀ (r' : Rules) (p' : Option Stmt), applyRulesToStat r' p' s = [])
      ∧ ∀ rest : List Stmt, specRebuild r prevStat (s :: rest)
          = s :: specRebuild r (some s) rest) := by
  obtain ⟨i, k⟩ := s
  refine ⟨?_, ?_, ?_, ?_⟩
  · intro hk; cases hk
    exact ⟨rfl, fun r' p' h' => by simp only [applyRulesToStat]; exact h'⟩
  · intro hk; cases hk
    exact ⟨rfl, fun r' p' h' => by simp only [applyRulesToStat]; exact h'⟩
  · intro hk; cases hk
    intro r' h1 h2 h3 h4
    simp only [applyRulesToStat, h1, h2, h3, h4]
  · intro hk; cases hk
    refine ⟨fun r' p' => rfl, fun rest => ?_⟩
    simp [specRebuild, applyRulesToStat]

/-- Witness for C4: a statement of fallback kind is passed to no rule and
matched by nothing, an Assign statement is decided by the Struct rule. -/
theorem c4_kind_dispatch_witness :
    (Stmt.mk 7 .other).kind = .other
    ∧ applyRulesToStat exampleRules none ⟨7, .other⟩ = []
    ∧ specRebuild exampleRules none [⟨7, .other⟩]
        = ⟨7, .other⟩ :: specRebuild exampleRules (some ⟨7, .other⟩) []
    ∧ ((Stmt.mk 3 .assign).kind = .assign
      ∧ applyRulesToStat exampleRules none ⟨3, .assign⟩
          = exampleRules.structRule ⟨3, .assign⟩) :=
  ⟨rfl,
    ((c4_kind_dispatch exampleRules none ⟨7, .other⟩).2.2.2 rfl).1 exampleRules none,
    ((c4_kind_dispatch exampleRules none ⟨7, .other⟩).2.2.2 rfl).2 [],
    ⟨rfl, ((c4_kind_dispatch exampleRules none ⟨3, .assign⟩).1 rfl).1⟩⟩

/-- Position `i + 1` of a cons body looks into the original list exactly as
position `i` of the tail scanned with the head as start. -/
theorem scanSpecAt_cons_succ (r : Rules) (p0 : Option Stmt) (s : Stmt)
    (rest : List Stmt) (i : Nat) :
    scanSpecAt r p0 (s :: rest) (i + 1) = scanSpecAt r (some s) rest i := by
  cases i <;> rfl

/-- The scanning loop is the position-indexed description: the statement at
position `i` is processed with the `prevStat` given by `prevFrom`. -/
theorem scan_eq_scanSpec (r : Rules) :
    ∀ (l : List Stmt) (p0 : Option Stmt), scan r p0 l = scanSpec r p0 l := by
  intro l
  induction l with
  | nil => intro p0; rfl
  | cons s rest ih =>
    intro p0
    rw [scan, scanSpec, List.length_cons, List.range_succ_eq_map,
      List.filterMap_cons, List.filterMap_map]
    have hhead : scanSpecAt r p0 (s :: rest) 0
        = (if applyRulesToStat r p0 s = [] then none
           else some (s.id, applyRulesToStat r p0 s)) := rfl
    have htail : scanSpecAt r p0 (s :: rest) ∘ Nat.succ
        = scanSpecAt r (some s) rest := by
      funext i
      exact scanSpecAt_cons_succ r p0 s rest i
    rw [htail, ih (some s)]
    by_cases hn : applyRulesToStat r p0 s = []
    · rw [hhead]
      simp [hn, scanSpec]
    · rw [hhead]
      simp [hn, scanSpec]

/-- C5: during the class-body scan `prevStat` starts as none, the rule
sequence for the statement at position `i + 1` receives the original
statement at position `i` regardless of whether any statement matched, and
the scan is exactly its position-indexed description. -/
theorem c5_prevstat_threading (r : Rules) (l : List Stmt) :
    prevFrom none l 0 = none
    ∧ (∀ i : Nat, prevFrom none l (i + 1) = l.get? i)
    ∧ scan r none l = scanSpec r none l :=
  ⟨rfl, fun _ => rfl, scan_eq_scanSpec r l none⟩

end SorbetDSL

namespace SorbetDSL

/-- Unfolding equation of the engine on a Send node. -/
theorem treeMapModel_send (h : TNode → TNode) (cs : TNodeList) :
    treeMapModel h (.send cs) = h (.send (treeMapListModel h cs)) := rfl

/-- Unfolding equation of the engine on a non-Send node. -/
theorem treeMapModel_other (h : TNode → TNode) (cs : TNodeList) :
    treeMapModel h (.other cs) = .other (treeMapListModel h cs) := rfl

/-- Unfolding equation of the engine on a cons child list. -/
theorem treeMapListModel_cons (h : TNode → TNode) (c : TNode) (cs : TNodeList) :
    treeMapListModel h (.cons c cs)
      = .cons (treeMapModel h c) (treeMapListModel h cs) := rfl

/-- Unfolding equation of `sendFree` on a non-Send node. -/
theorem sendFree_other (cs : TNodeList) :
    sendFree (.other cs) = sendFreeList cs := rfl

/-- Unfolding equation of `sendFreeList` on a cons child list. -/
theorem sendFreeList_cons (c : TNode) (cs : TNodeList) :
    sendFreeList (.cons c cs) = (sendFree c && sendFreeList cs) := rfl

/-- If the Send hook never leaves a Send node anywhere in its output, the
bottom-up engine's result contains no Send node at all: every Send node
anywhere in the tree, including Send nodes nested under other nodes, went
through the hook. -/
theorem treeMap_sendFree (h : TNode → TNode)
    (hh : ∀ x : TNode, sendFree (h x) = true) :
    ∀ t : TNode, sendFree (treeMapModel h t) = true :=
  @TNode.rec (fun t => sendFree (treeMapModel h t) = true)
    (fun l => sendFreeList (treeMapListModel h l) = true)
    (fun cs _ => by
      show sendFree (treeMapModel h (.send cs)) = true
      rw [treeMapModel_send]; exact hh _)
    (fun cs ih => by
      show sendFree (treeMapModel h (.other cs)) = true
      rw [treeMapModel_other, sendFree_other]; exact ih)
    (rfl)
    (fun c cs ihc ihcs => by
      show sendFreeList (treeMapListModel h (.cons c cs)) = true
      rw [treeMapListModel_cons, sendFreeList_cons]
      have ihc' : sendFree (treeMapModel h c) = true := ihc
      have ihcs' : sendFreeList (treeMapListModel h cs) = true := ihcs
      rw [ihc', ihcs']; rfl)

/-- C6: the class-level hook `Command::patchDSL` runs on the whole ClassDef
before the per-statement scan begins (running the driver with the hook
equals running the hook first and then the scan-only driver), and,
independently of the class-body loop, the Send hook `postTransformSend`
(delegating to `InterfaceWrapper::replaceDSL`) is applied by the bottom-up
engine to every Send node anywhere in the tree — if the hook's outputs are
Send-free, no Send survives anywhere. -/
theorem c6_class_hook_and_send_hook (patchDSL : ClassDef → ClassDef)
    (r : Rules) (cd : ClassDef) (iw : TNode → TNode) (t : TNode)
    (hiw : ∀ x : TNode, sendFree (iw x) = true) :
    postTransformClassDef patchDSL r cd = postTransformClassDef id r (patchDSL cd)
    ∧ sendFree (treeMapModel (postTransformSend iw) t) = true :=
  ⟨rfl, treeMap_sendFree (postTransformSend iw) (fun x => hiw x) t⟩

/-- Witness for C6 at a concrete hook and tree with nested Send nodes. -/
theorem c6_class_hook_and_send_hook_witness :
    (∀ x : TNode, sendFree ((fun _ => TNode.other .nil) x) = true)
    ∧ (postTransformClassDef id exampleRules exampleClassDef
        = postTransformClassDef id exampleRules (id exampleClassDef)
      ∧ sendFree (treeMapModel (postTransformSend fun _ => TNode.other .nil)
          (TNode.other (.cons (TNode.send (.cons (TNode.send .nil) .nil)) .nil)))
        = true) :=
  have hfree : ∀ x : TNode, sendFree ((fun _ => TNode.other .nil) x) = true :=
    fun _ => rfl
  ⟨hfree,
    c6_class_hook_and_send_hook id exampleRules exampleClassDef
      (fun _ => TNode.other .nil)
      (TNode.other (.cons (TNode.send (.cons (TNode.send .nil) .nil)) .nil))
      hfree⟩

end SorbetDSL

namespace SorbetAST

/-- The else section is never the empty string (it contains "else"). -/
theorem elseSection_ne_empty (tabs : Int) (e : RExpr) :
    elseSection tabs e ≠ "" := by
  intro h
  have h2 := congrArg String.length h
  simp [elseSection, String.length_append] at h2
  exact absurd h2.1.1.1.2 (by decide)

/-- The ensure section is never the empty string (it contains "ensure"). -/
theorem ensureSection_ne_empty (tabs : Int) (e : RExpr) :
    ensureSection tabs e ≠ "" := by
  intro h
  have h2 := congrArg String.length h
  simp [ensureSection, String.length_append] at h2
  exact absurd h2.1.1.1.2 (by decide)

/-- A guarded section collapses to the empty string exactly when its guard
is set, provided the section text itself is non-empty. -/
theorem if_section_empty_iff (b : Bool) (sec : String) (hs : sec ≠ "") :
    ((if b then "" else sec) = "") ↔ b = true := by
  cases b <;> simp [hs]

/-- C7: in every Rescue node the else and ensure branches are present
expressions — the EmptyTree sentinel or a real expression, never an absent
state — and Rescue::toString renders an "else" section exactly when the
else branch is not the EmptyTree sentinel and an "ensure" section exactly
when the ensure branch is not the EmptyTree sentinel. -/
theorem c7_rescue_else_ensure (r : Rescue) (tabs : Int) :
    (r.else_.isEmptyTree = true ∨ ∃ s raw, r.else_ = RExpr.atom s raw)
    ∧ (r.ensure.isEmptyTree = true ∨ ∃ s raw, r.ensure = RExpr.atom s raw)
    ∧ Rescue.toStr r tabs
        = (r.body.toStr
            ++ String.join (r.rescueCases.map fun rc =>
                "\n" ++ printTabs (tabs - 1) ++ rc.toStr tabs))
          ++ (if r.else_.isEmptyTree then "" else elseSection tabs r.else_)
          ++ (if r.ensure.isEmptyTree then "" else ensureSection tabs r.ensure)
    ∧ (((if r.else_.isEmptyTree then "" else elseSection tabs r.else_) = "")
        ↔ r.else_.isEmptyTree = true)
    ∧ (((if r.ensure.isEmptyTree then "" else ensureSection tabs r.ensure) = "")
        ↔ r.ensure.isEmptyTree = true) := by
  refine ⟨?_, ?_, rfl, ?_, ?_⟩
  · cases h : r.else_ with
    | emptyTree => exact Or.inl rfl
    | atom s raw => exact Or.inr ⟨s, raw, rfl⟩
  · cases h : r.ensure with
    | emptyTree => exact Or.inl rfl
    | atom s raw => exact Or.inr ⟨s, raw, rfl⟩
  · exact if_section_empty_iff _ _ (elseSection_ne_empty tabs r.else_)
  · exact if_section_empty_iff _ _ (ensureSection_ne_empty tabs r.ensure)

end SorbetAST

namespace SorbetAST

/-- The indexed pair loop of Hash::toString succeeds and renders the zip of
the remaining keys with the values from index `i` on, whenever the values
list is long enough. -/
theorem hashPairsToStr_eq :
    ∀ (ks : List RExpr) (first : Bool) (i : Nat) (vs : List RExpr),
      i + ks.length ≤ vs.length →
      hashPairsToStr vs ks i first
        = some (zipPairsToStr (ks.zip (vs.drop i)) first) := by
  intro ks
  induction ks with
  | nil =>
    intro first i vs _
    simp [hashPairsToStr, zipPairsToStr]
  | cons k ks ih =>
    intro first i vs h
    have hi : i < vs.length := by
      simp only [List.length_cons] at h
      omega
    have hv : vs[i]? = some vs[i] := List.getElem?_eq_getElem hi
    have hdrop : vs.drop i = vs[i] :: vs.drop (i + 1) :=
      List.drop_eq_getElem_cons hi
    have hih := ih false (i + 1) vs (by
      simp only [List.length_cons] at h
      omega)
    rw [hashPairsToStr, hv, hih]
    simp only [Option.some_bind, Option.pure_def]
    rw [hdrop]
    simp only [List.zip_cons_cons, zipPairsToStr]
    rfl

/-- The indexed pair-block loop of Hash::showRaw succeeds and renders the
zip of the remaining keys with the values from index `i` on, whenever the
values list is long enough. -/
theorem hashPairsRaw_eq (tabs : Int) :
    ∀ (ks : List RExpr) (i : Nat) (vs : List RExpr),
      i + ks.length ≤ vs.length →
      hashPairsRaw vs tabs ks i
        = some (zipPairsRaw tabs (ks.zip (vs.drop i))) := by
  intro ks
  induction ks with
  | nil =>
    intro i vs _
    simp [hashPairsRaw, zipPairsRaw]
  | cons k ks ih =>
    intro i vs h
    have hi : i < vs.length := by
      simp only [List.length_cons] at h
      omega
    have hv : vs[i]? = some vs[i] := List.getElem?_eq_getElem hi
    have hdrop : vs.drop i = vs[i] :: vs.drop (i + 1) :=
      List.drop_eq_getElem_cons hi
    have hih := ih (i + 1) vs (by
      simp only [List.length_cons] at h
      omega)
    rw [hashPairsRaw, hv, hih]
    simp only [Option.some_bind, Option.pure_def]
    rw [hdrop]
    simp only [List.zip_cons_cons, zipPairsRaw]
    rfl

/-- C8: under the construction-time invariant keys.size() == values.size(),
Hash::toString and Hash::showRaw stay in bounds (they produce a result
instead of hitting the out-of-bounds `none`) and render exactly
keys.size() key/value pairs, pairing the i-th key with the i-th value in
order. -/
theorem c8_hash_pairing (h : Hash) (tabs : Int)
    (hlen : h.keys.length = h.values.length) :
    (∃ s, Hash.toStr h = some s
      ∧ s = "\x7b" ++ zipPairsToStr (h.keys.zip h.values) true ++ "\x7d")
    ∧ (∃ s, Hash.showRawStr h tabs = some s
      ∧ s = "Hash" ++ "\x7b" ++ "\n" ++ printTabs (tabs + 1) ++ "pairs = ["
          ++ "\n" ++ zipPairsRaw tabs (h.keys.zip h.values)
          ++ printTabs (tabs + 1) ++ "]" ++ "\n" ++ printTabs tabs ++ "\x7d")
    ∧ (h.keys.zip h.values).length = h.keys.length := by
  have hb : 0 + h.keys.length ≤ h.values.length := by omega
  have h1 := hashPairsToStr_eq h.keys true 0 h.values hb
  have h2 := hashPairsRaw_eq tabs h.keys 0 h.values hb
  rw [List.drop_zero] at h1 h2
  refine ⟨⟨_, ?_, rfl⟩, ⟨_, ?_, rfl⟩, ?_⟩
  · rw [Hash.toStr, h1]; rfl
  · rw [Hash.showRawStr, h2]; rfl
  · rw [List.length_zip, hlen, Nat.min_self]

/-- Witness for C8 at a concrete two-pair hash. -/
theorem c8_hash_pairing_witness :
    ((Hash.mk [RExpr.atom "a" "ra", RExpr.atom "b" "rb"]
        [RExpr.atom "1" "r1", RExpr.atom "2" "r2"]).keys.length
      = (Hash.mk [RExpr.atom "a" "ra", RExpr.atom "b" "rb"]
        [RExpr.atom "1" "r1", RExpr.atom "2" "r2"]).values.length)
    ∧ (∃ s, Hash.toStr (Hash.mk [RExpr.atom "a" "ra", RExpr.atom "b" "rb"]
          [RExpr.atom "1" "r1", RExpr.atom "2" "r2"]) = some s
        ∧ s = "\x7b" ++ zipPairsToStr
            ((Hash.mk [RExpr.atom "a" "ra", RExpr.atom "b" "rb"]
              [RExpr.atom "1" "r1", RExpr.atom "2" "r2"]).keys.zip
             (Hash.mk [RExpr.atom "a" "ra", RExpr.atom "b" "rb"]
              [RExpr.atom "1" "r1", RExpr.atom "2" "r2"]).values) true ++ "\x7d") :=
  ⟨rfl,
    (c8_hash_pairing
      (Hash.mk [RExpr.atom "a" "ra", RExpr.atom "b" "rb"]
        [RExpr.atom "1" "r1", RExpr.atom "2" "r2"]) 0 rfl).1⟩

end SorbetAST

namespace SorbetAST

/-- C9: Send::toString and Send::showRaw dereference the receiver
unconditionally — they crash exactly when the receiver slot is null, so a
well-formed Send carries a receiver — while the trailing block genuinely may
be null: toString appends the block text exactly when the block is present,
and showRaw prints the literal "nullptr" for a missing block. -/
theorem c9_send_recv_block (s : SendNode) (tabs : Int) :
    (SendNode.toStr s = none ↔ s.recv = none)
    ∧ (SendNode.showRawStr s tabs = none ↔ s.recv = none)
    ∧ (∀ (r : RExpr) (fn : String) (args : List RExpr) (b : BlockNode),
        SendNode.toStr ⟨some r, fn, args, some b⟩
          = some (r.toStr ++ "." ++ fn ++ printArgs args ++ b.str))
    ∧ (∀ (r : RExpr) (fn : String) (args : List RExpr),
        SendNode.toStr ⟨some r, fn, args, none⟩
          = some (r.toStr ++ "." ++ fn ++ printArgs args ++ ""))
    ∧ (∀ (r : RExpr) (fn : String) (args : List RExpr) (b : BlockNode),
        SendNode.toStr ⟨some r, fn, args, some b⟩
          = (SendNode.toStr ⟨some r, fn, args, none⟩).map (· ++ b.str))
    ∧ (∀ (r : RExpr) (fn : String) (args : List RExpr),
        SendNode.showRawStr ⟨some r, fn, args, none⟩ tabs
          = some ("Send" ++ "\x7b" ++ "\n"
              ++ printTabs (tabs + 1) ++ "recv = " ++ r.showRawStr ++ "\n"
              ++ printTabs (tabs + 1) ++ "fun = " ++ fn ++ "\n"
              ++ printTabs (tabs + 1) ++ "block = " ++ ("nullptr" ++ "\n")
              ++ printTabs (tabs + 1) ++ "args = [" ++ "\n"
              ++ rawElems tabs args
              ++ printTabs (tabs + 1) ++ "]" ++ "\n"
              ++ printTabs tabs ++ "\x7d")) := by
  obtain ⟨rc, fn, args, blk⟩ := s
  refine ⟨?_, ?_, fun r fn args b => rfl, fun r fn args => rfl, ?_, fun r fn args => rfl⟩
  · cases rc <;> simp [SendNode.toStr]
  · cases rc <;> simp [SendNode.showRawStr]
  · intro r fn args b
    simp only [SendNode.toStr, Option.map_some']
    rw [String.append_empty]

end SorbetAST

namespace SorbetAST

/-- C10: EmptyTree's constructor is the only one in Trees.cc that supplies
the stored location itself — it always stores the "none" location — while
every other variant's constructor stores exactly the caller-supplied
location. -/
theorem c10_emptytree_none_loc :
    mkEmptyTree.loc = Loc.noneLoc
    ∧ mkEmptyTree.kind = NodeKind.emptyTree
    ∧ (∀ loc declLoc : Loc, (mkClassDef loc declLoc).loc = loc)
    ∧ (∀ loc declLoc : Loc, (mkMethodDef loc declLoc).loc = loc)
    ∧ (∀ loc : Loc, (mkIf loc).loc = loc)
    ∧ (∀ loc : Loc, (mkWhile loc).loc = loc)
    ∧ (∀ loc : Loc, (mkBreak loc).loc = loc)
    ∧ (∀ loc : Loc, (mkRetry loc).loc = loc)
    ∧ (∀ loc : Loc, (mkNext loc).loc = loc)
    ∧ (∀ loc : Loc, (mkReturn loc).loc = loc)
    ∧ (∀ loc : Loc, (mkYield loc).loc = loc)
    ∧ (∀ loc : Loc, (mkRescueCase loc).loc = loc)
    ∧ (∀ loc : Loc, (mkRescue loc).loc = loc)
    ∧ (∀ loc : Loc, (mkField loc).loc = loc)
    ∧ (∀ loc : Loc, (mkLocal loc).loc = loc)
    ∧ (∀ loc : Loc, (mkUnresolvedIdent loc).loc = loc)
    ∧ (∀ loc : Loc, (mkAssign loc).loc = loc)
    ∧ (∀ loc : Loc, (mkSend loc).loc = loc)
    ∧ (∀ loc : Loc, (mkCast loc).loc = loc)
    ∧ (∀ loc : Loc, (mkZSuperArgs loc).loc = loc)
    ∧ (∀ loc : Loc, (mkRestArg loc).loc = loc)
    ∧ (∀ loc : Loc, (mkKeywordArg loc).loc = loc)
    ∧ (∀ loc : Loc, (mkOptionalArg loc).loc = loc)
    ∧ (∀ loc : Loc, (mkShadowArg loc).loc = loc)
    ∧ (∀ loc : Loc, (mkBlockArg loc).loc = loc)
    ∧ (∀ loc : Loc, (mkLiteral loc).loc = loc)
    ∧ (∀ loc : Loc, (mkUnresolvedConstantLit loc).loc = loc)
    ∧ (∀ loc : Loc, (mkConstantLit loc).loc = loc)
    ∧ (∀ loc : Loc, (mkSelf loc).loc = loc)
    ∧ (∀ loc : Loc, (mkBlock loc).loc = loc)
    ∧ (∀ loc : Loc, (mkHash loc).loc = loc)
    ∧ (∀ loc : Loc, (mkArray loc).loc = loc)
    ∧ (∀ loc : Loc, (mkInsSeq loc).loc = loc)
    ∧ (∀ l1 l2 : Loc, l1 ≠ l2 → (mkLiteral l1).loc ≠ (mkLiteral l2).loc) :=
  ⟨rfl, rfl, fun _ _ => rfl, fun _ _ => rfl, fun _ => rfl, fun _ => rfl,
    fun _ => rfl, fun _ => rfl, fun _ => rfl, fun _ => rfl, fun _ => rfl,
    fun _ => rfl, fun _ => rfl, fun _ => rfl, fun _ => rfl, fun _ => rfl,
    fun _ => rfl, fun _ => rfl, fun _ => rfl, fun _ => rfl, fun _ => rfl,
    fun _ => rfl, fun _ => rfl, fun _ => rfl, fun _ => rfl, fun _ => rfl,
    fun _ => rfl, fun _ => rfl, fun _ => rfl, fun _ => rfl, fun _ => rfl,
    fun _ => rfl, fun _ => rfl, fun _ _ h => h⟩

/-- Witness for C10's non-fixedness part at two distinct concrete
locations. -/
theorem c10_emptytree_none_loc_witness :
    (Loc.span 0 1 ≠ Loc.span 2 3)
    ∧ (mkLiteral (Loc.span 0 1)).loc ≠ (mkLiteral (Loc.span 2 3)).loc :=
  ⟨by decide,
    (c10_emptytree_none_loc.2.2.2.2.2.2.2.2.2.2.2.2.2.2.2.2.2.2.2.2.2.2.2.2.2.2.2.2.2.2.2.2.2
      (Loc.span 0 1) (Loc.span 2 3) (by decide))⟩

end SorbetAST

namespace SorbetAST

/-- Witness for C7 at a concrete Rescue with a real else branch and an
absent (EmptyTree) ensure branch. -/
theorem c7_rescue_else_ensure_witness :
    (((if (RExpr.atom "e" "re").isEmptyTree then ""
        else elseSection 1 (RExpr.atom "e" "re")) = "")
      ↔ (RExpr.atom "e" "re").isEmptyTree = true)
    ∧ (((if RExpr.emptyTree.isEmptyTree then ""
        else ensureSection 1 RExpr.emptyTree) = "")
      ↔ RExpr.emptyTree.isEmptyTree = true) :=
  ⟨(c7_rescue_else_ensure
      ⟨RExpr.atom "b" "rb", [], RExpr.atom "e" "re", RExpr.emptyTree⟩ 1).2.2.2.1,
   (c7_rescue_else_ensure
      ⟨RExpr.atom "b" "rb", [], RExpr.atom "e" "re", RExpr.emptyTree⟩ 1).2.2.2.2⟩

/-- Witness for C9 at a concrete Send with a null receiver. -/
theorem c9_send_recv_block_witness :
    (SendNode.toStr (SendNode.mk none "foo" [] none) = none
      ↔ (SendNode.mk none "foo" [] none).recv = none)
    ∧ SendNode.toStr (SendNode.mk none "foo" [] none) = none :=
  ⟨(c9_send_recv_block (SendNode.mk none "foo" [] none) 0).1,
   ((c9_send_recv_block (SendNode.mk none "foo" [] none) 0).1).mpr rfl⟩

end SorbetAST
